import Mathlib

/-!
Shallow embedding of the ResearchBot repository.

The embedded code is `src/research-bot-v4/researchbot.py` (the LangGraph
agentic-RAG loop: planning, retrieval, deduplication, synthesis,
reflection, and the conditional loop edge), the memory namespacing and
`user_id` resolution of `src/research-bot-v6/researchbot.py`, and the
supervisor configuration of `src/research-bot-v5/researchbot.py`.

Modelling conventions: Python floats are exact rationals, optional Python
values (`None`) are `Option` fields, and the external capabilities (the
completion model `self.llm.invoke`, the vector search
`self.retriever.invoke`, the memory store) are oracle functions passed in
explicitly.  A search call that raises is modelled as `none`.
-/

namespace ResearchBot

/-- A retrieved document as the vector store returns it
(`doc.page_content`, `doc.metadata`). -/
structure Doc where
  page_content : String
  metadata : List (String × String)
  deriving DecidableEq

/-- A source dict as `_retrieval_node` builds it (v4 lines 143-147):
content, metadata, and the query that produced the hit. -/
structure Source where
  content : String
  metadata : List (String × String)
  query : String
  deriving DecidableEq

/-- `ResearchBotState` (v4 lines 25-32), one record per research request. -/
structure ResearchBotState where
  research_query : String
  research_plan : Option (List String)
  sources : List Source
  findings : Option String
  confidence : Option ℚ
  iteration : Nat
  max_iterations : Nat
  deriving DecidableEq

/-- The two external capabilities the loop consumes: text completion and
top-k similarity search.  `search q = none` models the retriever raising
on query `q` (caught per query by `_retrieval_node`); `some hits` is a
successful search, hits ranked by relevance. -/
structure Capabilities where
  complete : String → String
  search : String → Option (List Doc)

/-! ## Planning node (`_planning_node`, v4 lines 92-129) -/

/-- The planning prompt (v4 lines 100-114). -/
def planningPrompt (query : String) : String :=
  "You are ResearchBot planning a research strategy.\n\nQuery: " ++ query ++
  "\n\nBreak this query into focused sub-questions if it would benefit from multiple searches.\nFor simple, direct questions, no sub-questions are needed.\n\nExamples:\n- \"What was VaporWare?\" -> No sub-questions needed\n- \"Who was Diana Reeves?\" -> No sub-questions needed\n- \"Why did Vapor Labs fail and what lessons were learned?\" -> \"Why did Vapor Labs fail?\", \"What lessons were learned from Vapor Labs?\"\n\nRespond in this exact format:\nSUB_QUESTIONS: comma-separated list, or \"none\" if the original query is sufficient\n"

/-- The sub-question extraction of `_planning_node` (v4 lines 120-124):
when `"SUB_QUESTIONS:" in content`, take the text after the first marker up
to the next newline and strip it; unless it is empty or case-insensitively
`none` / `n/a`, split on commas, trim each part and drop empty entries. -/
def planningParse (content : String) : Option (List String) :=
  let parts := content.splitOn "SUB_QUESTIONS:"
  if 2 ≤ parts.length then
    let sq_line := (((parts.getD 1 "").splitOn "\n").headD "").trim
    if sq_line ≠ "" ∧ sq_line.toLower ∉ (["none", "n/a", ""] : List String) then
      some (((sq_line.splitOn ",").map String.trim).filter (· ≠ ""))
    else none
  else none

/-- `_planning_node`: ask the completion capability and set
`research_plan`. -/
def applyPlanning (caps : Capabilities) (s : ResearchBotState) : ResearchBotState :=
  { s with research_plan := planningParse (caps.complete (planningPrompt s.research_query)) }

/-! ## Retrieval node (`_retrieval_node`, v4 lines 131-161) -/

/-- The query list of v4 line 136,
`state.get("research_plan") or [state["research_query"]]`: Python `or`
falls through to the original query both on `None` and on an empty plan
list. -/
def retrievalQueries (s : ResearchBotState) : List String :=
  match s.research_plan with
  | some (q :: qs) => q :: qs
  | _ => [s.research_query]

/-- The loop body of v4 lines 139-150: issue the search for one query; a
raising search is caught and the query skipped (`all_sources` unchanged);
on success each hit is appended as a source tagged with the query that
produced it, in hit-rank order. -/
def retrievalStep (search : String → Option (List Doc)) (all_sources : List Source)
    (query : String) : List Source :=
  match search query with
  | some results =>
      all_sources ++ results.map (fun doc => ⟨doc.page_content, doc.metadata, query⟩)
  | none => all_sources

/-- v4 lines 138-150: the retrieval loop over the queries in order,
accumulating `all_sources` from the empty list. -/
def gatherSources (search : String → Option (List Doc)) (queries : List String) :
    List Source :=
  queries.foldl (retrievalStep search) []

/-- The dedup key of v4 line 156, `hash(source["content"][:200])`: the
Python string hash is modelled as an injective function of the first 200
characters, i.e. by the 200-character prefix itself. -/
def dedupKey (source : Source) : String :=
  source.content.take 200

/-- v4 lines 152-159: keep a source whose key is not in `seen_content`,
else drop it; `seen` accumulates the keys of the sources kept so far. -/
def dedupeAux (seen : List String) : List Source → List Source
  | [] => []
  | source :: rest =>
    if dedupKey source ∈ seen then dedupeAux seen rest
    else source :: dedupeAux (dedupKey source :: seen) rest

/-- The deduplication pass of `_retrieval_node`, starting from an empty
seen-set. -/
def dedupeSources (sources : List Source) : List Source :=
  dedupeAux [] sources

/-- `_retrieval_node`: gather, deduplicate, and replace `sources`. -/
def applyRetrieval (caps : Capabilities) (s : ResearchBotState) : ResearchBotState :=
  { s with sources := dedupeSources (gatherSources caps.search (retrievalQueries s)) }

/-! ## Synthesis node (`_synthesis_node`, v4 lines 163-199) -/

/-- The fixed apology-and-retry message of v4 line 172, returned without a
completion call when no sources were retrieved. -/
def apologyMessage : String :=
  "I couldn\x27t find any relevant information in my knowledge base to answer your research question. Could you try rephrasing your query or ask about a different topic?"

/-- The numbered context block of v4 lines 176-179:
`[Source i+1] content`, joined by blank lines, in source order. -/
def synthesisContext (sources : List Source) : String :=
  String.intercalate "\n\n"
    (sources.enum.map (fun p => "[Source " ++ toString (p.1 + 1) ++ "] " ++ p.2.content))

/-- The synthesis prompt (v4 lines 181-196). -/
def synthesisPrompt (query : String) (sources : List Source) : String :=
  "You are ResearchBot synthesizing research findings.\n\nResearch Question: " ++ query ++
  "\n\nSources:\n" ++ synthesisContext sources ++
  "\n\nInstructions:\n- Synthesize the information into clear, well-organized findings\n- Cite sources using [1], [2], etc.\n- Note any conflicting information between sources\n- Acknowledge gaps if the sources don\x27t fully answer the question\n- Be thorough but concise\n\nResearch Findings:\n"

/-- `_synthesis_node`, instrumented: the pair is the produced `findings`
value and the number of completion-capability calls the node issued
(`0` on the empty-sources short circuit, `1` otherwise). -/
def synthesisNode (caps : Capabilities) (query : String) (sources : List Source) :
    String × Nat :=
  if sources = [] then (apologyMessage, 0)
  else (caps.complete (synthesisPrompt query sources), 1)

/-- `_synthesis_node` as a state update. -/
def applySynthesis (caps : Capabilities) (s : ResearchBotState) : ResearchBotState :=
  { s with findings := some (synthesisNode caps s.research_query s.sources).1 }

/-! ## Reflection node (`_reflection_node`, v4 lines 201-236)

The confidence score is extracted with `re.findall(r"0?\.\d+|1\.0|0|1",
score_text)`.  The pattern is modelled by a hand-rolled matcher with
Python `re` semantics: scan left to right, at each position try the
alternatives in the pattern's order, record a match and resume right after
its end.  The regex class `\d` is modelled on the ASCII digits. -/

/-- The regex class `\d` (ASCII digits `0`-`9`, code points 48-57). -/
def isDigitChar (c : Char) : Bool :=
  48 ≤ c.toNat && c.toNat ≤ 57

/-- Greedily consume leading digits: the matched digits and the rest. -/
def takeDigits : List Char → List Char × List Char
  | [] => ([], [])
  | c :: cs =>
    if isDigitChar c then ((c :: (takeDigits cs).1), (takeDigits cs).2)
    else ([], c :: cs)

/-- The sub-pattern `\.\d+` at the current position. -/
def matchDotDigits (cs : List Char) : Option (List Char × List Char) :=
  match cs with
  | '.' :: rest =>
    if (takeDigits rest).1 = [] then none
    else some ('.' :: (takeDigits rest).1, (takeDigits rest).2)
  | _ => none

/-- The alternative `0?\.\d+`: try with the optional leading `0` consumed,
else backtrack to the bare `\.\d+`. -/
def matchZeroDotDigits (cs : List Char) : Option (List Char × List Char) :=
  match cs with
  | '0' :: rest =>
    match matchDotDigits rest with
    | some (m, r) => some ('0' :: m, r)
    | none => matchDotDigits cs
  | _ => matchDotDigits cs

/-- One attempted match of `0?\.\d+|1\.0|0|1` at the current position,
alternatives tried in the pattern's order. -/
def matchScore (cs : List Char) : Option (List Char × List Char) :=
  match matchZeroDotDigits cs with
  | some x => some x
  | none =>
    match cs with
    | '1' :: '.' :: '0' :: r => some (['1', '.', '0'], r)
    | '0' :: r => some (['0'], r)
    | '1' :: r => some (['1'], r)
    | _ => none

/-- `re.findall` of the score pattern: scan left to right, on a match
record it and resume after the matched text.  `fuel` is a structural bound
on the scan steps; every step consumes at least one character, so starting
it at the text's length never cuts the scan short. -/
def findallAux : Nat → List Char → List (List Char)
  | 0, _ => []
  | _, [] => []
  | fuel + 1, c :: cs =>
    match matchScore (c :: cs) with
    | some (m, r) => m :: findallAux fuel r
    | none => findallAux fuel cs

/-- All matches of the score pattern in a text, leftmost first. -/
def findallScores (text : List Char) : List (List Char) :=
  findallAux text.length text

/-- Python `str.strip()`: drop leading and trailing whitespace.  (Python's
whitespace set is slightly wider than `Char.isWhitespace`; the difference
is immaterial here, since no whitespace character can occur inside a match
of the score pattern.) -/
def stripData (cs : List Char) : List Char :=
  ((cs.dropWhile Char.isWhitespace).reverse.dropWhile Char.isWhitespace).reverse

/-- A decimal digit string as a natural number, most significant digit
first (`'0'` has code point 48). -/
def digitsToNat : List Char → Nat
  | [] => 0
  | c :: cs => (c.toNat - 48) * 10 ^ cs.length + digitsToNat cs

/-- Python `float` on a matched score token (an optional integer part,
then optionally `.` and a fraction), as an exact rational. -/
def parseScore (cs : List Char) : ℚ :=
  match cs.dropWhile (· ≠ '.') with
  | [] => digitsToNat (cs.takeWhile (· ≠ '.'))
  | _ :: frac =>
      (digitsToNat (cs.takeWhile (· ≠ '.')) : ℚ) + (digitsToNat frac : ℚ) / 10 ^ frac.length

/-- v4 lines 225-228: strip the response, find all matches of the score
pattern, take the first, or default to `0.7` when there is none. -/
def rawConfidence (response : String) : ℚ :=
  match findallScores (stripData response.data) with
  | [] => 7 / 10
  | n :: _ => parseScore n

/-- v4 lines 225-229 in full: the extracted (or defaulted) score, clamped
into `[0, 1]` by `max(0.0, min(1.0, confidence))`.  Every token the
pattern can match parses without error, so the Python `except` branch
(which also yields `0.7`) is unreachable. -/
def confidenceOf (response : String) : ℚ :=
  max 0 (min 1 (rawConfidence response))

/-- The reflection prompt (v4 lines 208-219). -/
def reflectionPrompt (query : String) (findings : String) : String :=
  "Evaluate these research findings on a scale of 0.0 to 1.0:\n\nOriginal Question: " ++
  query ++ "\nFindings: " ++ findings ++
  "\n\nConsider:\n- Does it fully address the question?\n- Is it well-supported by cited sources?\n- Are there significant gaps?\n\nRespond with ONLY a number between 0.0 and 1.0:\n"

/-- Python interpolation of the `findings` field (`str(None)` when the
field was never set). -/
def findingsText (findings : Option String) : String :=
  match findings with
  | some f => f
  | none => "None"

/-- `_reflection_node` (v4 lines 233-236): set `confidence` and increment
`iteration` by one. -/
def applyReflection (caps : Capabilities) (s : ResearchBotState) : ResearchBotState :=
  { s with
    confidence :=
      some (confidenceOf (caps.complete (reflectionPrompt s.research_query (findingsText s.findings)))),
    iteration := s.iteration + 1 }

/-! ## Loop controller (`_should_continue` and `_build_graph`, v4 lines 242-297) -/

/-- `_should_continue` (v4 lines 242-256).  `state.get("confidence", 0)`
is modelled as `getD 0`; on every reachable call the reflection node has
just set the field. -/
def shouldContinue (s : ResearchBotState) : String :=
  if s.max_iterations ≤ s.iteration then "end"
  else if s.confidence.getD 0 < 6 / 10 then "retrieve"
  else "end"

/-- The nodes of the graph built by `_build_graph`, with `DONE` standing
for LangGraph's `END`. -/
inductive Node
  | PLAN
  | RETRIEVE
  | SYNTHESIZE
  | REFLECT
  | DONE
  deriving DecidableEq

/-- The conditional edge out of `reflect` (v4 lines 287-294): the string
`"retrieve"` routes back to the `retrieve` node, `"end"` to `END`. -/
def routeAfterReflect (s : ResearchBotState) : Node :=
  if shouldContinue s = "retrieve" then Node.RETRIEVE else Node.DONE

/-- One `retrieve → synthesize → reflect` pass of the graph (the
unconditional edges of v4 lines 278-284). -/
def researchCycle (caps : Capabilities) (s : ResearchBotState) : ResearchBotState :=
  applyReflection caps (applySynthesis caps (applyRetrieval caps s))

lemma researchCycle_iteration (caps : Capabilities) (s : ResearchBotState) :
    (researchCycle caps s).iteration = s.iteration + 1 := rfl

lemma researchCycle_max_iterations (caps : Capabilities) (s : ResearchBotState) :
    (researchCycle caps s).max_iterations = s.max_iterations := rfl

lemma researchCycle_research_plan (caps : Capabilities) (s : ResearchBotState) :
    (researchCycle caps s).research_plan = s.research_plan := rfl

/-- The route out of `reflect` re-enters retrieval exactly when the
iteration ceiling is not reached and the stored confidence (read with the
dict-get default `0`) is below `0.6`. -/
lemma routeAfterReflect_retrieve_iff (s : ResearchBotState) :
    routeAfterReflect s = Node.RETRIEVE ↔
      s.iteration < s.max_iterations ∧ s.confidence.getD 0 < 6 / 10 := by
  unfold routeAfterReflect shouldContinue
  by_cases h1 : s.max_iterations ≤ s.iteration
  · simp [h1, Nat.not_lt.mpr h1]
  · by_cases h2 : s.confidence.getD 0 < 6 / 10 <;>
      simp [h1, h2, Nat.lt_of_not_le h1]

lemma routeAfterReflect_eq_done (s : ResearchBotState)
    (h : ¬ routeAfterReflect s = Node.RETRIEVE) : routeAfterReflect s = Node.DONE := by
  unfold routeAfterReflect at *
  by_cases h2 : shouldContinue s = "retrieve" <;> simp [h2] at *

/-- Run the graph from the `retrieve` node until the conditional edge
routes to `END`, returning the final state.  Termination: each cycle
increments `iteration`, and the edge re-enters retrieval only while
`iteration < max_iterations`. -/
def loopFrom (caps : Capabilities) (s : ResearchBotState) : ResearchBotState :=
  if h : routeAfterReflect (researchCycle caps s) = Node.RETRIEVE then
    loopFrom caps (researchCycle caps s)
  else researchCycle caps s
termination_by s.max_iterations - s.iteration
decreasing_by
  have h2 := ((routeAfterReflect_retrieve_iff (researchCycle caps s)).mp h).1
  rw [researchCycle_iteration, researchCycle_max_iterations] at h2 ⊢
  omega

/-- The initial state of `research` (v4 lines 344-352): `max_iterations`
is the hardcoded literal `3`. -/
def initialState (question : String) : ResearchBotState :=
  { research_query := question
    research_plan := none
    sources := []
    findings := none
    confidence := none
    iteration := 0
    max_iterations := 3 }

/-- `initialState` generalized over the iteration ceiling, for statements
that quantify over `max_iterations = N`; the source entry point itself
always passes the literal `3`. -/
def initialStateWith (question : String) (maxIterations : Nat) : ResearchBotState :=
  { initialState question with max_iterations := maxIterations }

/-- The final state `graph.invoke(initial_state)` reaches for a request:
the `plan` node once, then the retrieval loop. -/
def researchFinalState (caps : Capabilities) (question : String) : ResearchBotState :=
  loopFrom caps (applyPlanning caps (initialState question))

/-- `research` (v4 lines 333-357): the findings of the final state, with
the fallback string of line 357. -/
def research (caps : Capabilities) (question : String) : String :=
  (researchFinalState caps question).findings.getD
    "I wasn\x27t able to find relevant information for your query."

/-- The loop run with a caller-chosen iteration ceiling, for the
spec-level statements about `max_iterations = N`. -/
def runLoopWith (caps : Capabilities) (question : String) (maxIterations : Nat) :
    ResearchBotState :=
  loopFrom caps (applyPlanning caps (initialStateWith question maxIterations))

/-! ## Memory adapter (v6: `_create_memory_tools`, `research`) -/

/-- A memory namespace: the `(kind, user_id)` tuple of the store. -/
abbrev MemNamespace := String × String

/-- A record of the long-term memory store: its namespace and free-text
content. -/
structure MemoryEntry where
  ns : MemNamespace
  content : String
  deriving DecidableEq

/-- Modelled from the spec: the memory capability `save(namespace,
content)` (realized by the LangGraph `InMemoryStore` behind langmem's
`create_manage_memory_tool`, which is not part of this repository) appends
a record under exactly the given namespace. -/
def saveMemory (store : List MemoryEntry) (ns : MemNamespace) (content : String) :
    List MemoryEntry :=
  store ++ [⟨ns, content⟩]

/-- Modelled from the spec: the memory capability `search(namespace,
query)` (langmem's `create_search_memory_tool`, not part of this
repository) performs semantic lookup among the records of exactly the
given namespace; the embedding-based ranking is external, so the model
returns every record of the namespace — a superset of any ranked result
list the real store can return. -/
def searchMemory (store : List MemoryEntry) (ns : MemNamespace) : List MemoryEntry :=
  store.filter (fun e => e.ns = ns)

/-- The namespace template `("memories", "{user_id}")` of
`_create_memory_tools` (v6 lines 90-104), instantiated with the request's
resolved `user_id`. -/
def memoryNamespace (user_id : String) : MemNamespace :=
  ("memories", user_id)

/-- The `user_id` resolution of v6 `research` line 278, `user_id or
self.current_user_id`: Python `or` also replaces an empty string with the
fixed development identity. -/
def resolveUserId (user_id : Option String) : String :=
  match user_id with
  | some u => if u = "" then "default_user" else u
  | none => "default_user"

/-! ## Delegation supervisor (v5 `_build_multi_agent_system`) -/

/-- The specialist roles configured in `_build_multi_agent_system`
(v5 lines 121-186). -/
inductive AgentRole
  | query_analyst
  | document_researcher
  | report_writer
  deriving DecidableEq

/-- The tool capability set of each role as configured in the source:
only `document_researcher` is created with the retrieval tool
`search_documents` (v5 line 150); the analyst and the writer are created
with `tools=[]`. -/
def agentTools : AgentRole → List String
  | .document_researcher => ["search_documents"]
  | _ => []

/-- The `agents=[query_analyst, document_researcher, report_writer]` list
passed to `create_supervisor` (v5 line 193). -/
def supervisorAgents : List AgentRole :=
  [.query_analyst, .document_researcher, .report_writer]

/-- Modelled from the spec: the execution engine of `create_supervisor`
(the langgraph-supervisor package, not part of this repository) runs the
delegation as a fixed linear pipeline, handing the task to the configured
roles in the workflow order of the coordinator prompt — analyst, then
researcher, then writer — each invocation receiving the full running
transcript (the question plus all prior role outputs). -/
def runSupervisor (caps : Capabilities) (question : String) : List (AgentRole × String) :=
  supervisorAgents.foldl
    (fun transcript role =>
      transcript ++
        [(role, caps.complete (String.intercalate "\n" (question :: transcript.map Prod.snd)))])
    []

/-! ## The caller boundary claimed by the spec (§6) -/

/-- The per-request state the entry-point contract of spec §6 claims:
`research(question, user_id?, max_iterations?)`, a caller-supplied
`max_iterations` overriding the default ceiling of 3.  This definition
follows the claim's words; it is to be compared with `initialState`,
which is what the repository's `research` actually builds. -/
def claimedInitialState (question : String) (max_iterations : Option Nat) :
    ResearchBotState :=
  { initialState question with max_iterations := max_iterations.getD 3 }

/-! ## Claim theorems -/

/-- Claim C3: for every request and every reflect pass, the confidence
value the reflection node stores in the state — whether parsed from the
completion response or defaulted — lies in the closed interval `[0, 1]`. -/
theorem C3_confidence_unit_interval (caps : Capabilities) (s : ResearchBotState) :
    ∃ c : ℚ, (applyReflection caps s).confidence = some c ∧ 0 ≤ c ∧ c ≤ 1 := by
  refine ⟨_, rfl, ?_, ?_⟩
  · exact le_max_left 0 _
  · exact max_le zero_le_one (min_le_left 1 _)

/-- Claim C5: with an empty source list, `_synthesis_node` returns the
fixed apology-and-retry message and issues zero completion-capability
calls; consequently a state with no sources gets exactly that findings
value, whatever the completion capability would answer. -/
theorem C5_empty_sources_short_circuit (caps : Capabilities) (query : String) :
    synthesisNode caps query [] = (apologyMessage, 0) ∧
    ∀ s : ResearchBotState, s.sources = [] →
      (applySynthesis caps s).findings = some apologyMessage := by
  constructor
  · rfl
  · intro s hs
    simp [applySynthesis, synthesisNode, hs]

/-- Claim C9: the delegation supervisor invokes the specialist roles in
the fixed order analyst, then researcher, then writer, for every input
question (the invocation order of the trace is a constant, independent of
the input's content); and as configured in the source, the researcher is
the only role holding the retrieval tool. -/
theorem C9_fixed_delegation_order (caps : Capabilities) (question : String) :
    (runSupervisor caps question).map Prod.fst =
      [AgentRole.query_analyst, AgentRole.document_researcher, AgentRole.report_writer] ∧
    ∀ role, "search_documents" ∈ agentTools role → role = AgentRole.document_researcher := by
  constructor
  · rfl
  · intro role h
    cases role <;> simp [agentTools] at h ⊢

/-- Claim C8: memory isolation across user identities — a record saved
under the namespace of one user is never among the records a search under
a different user's namespace draws from (so no ranked result of that
search can contain it). -/
theorem C8_memory_isolation (store : List MemoryEntry) (u1 u2 content : String)
    (h : u1 ≠ u2) :
    (⟨memoryNamespace u1, content⟩ : MemoryEntry) ∉
      searchMemory (saveMemory store (memoryNamespace u1) content) (memoryNamespace u2) ∧
    ∀ e ∈ searchMemory (saveMemory store (memoryNamespace u1) content) (memoryNamespace u2),
      e.ns ≠ memoryNamespace u1 := by
  constructor
  · intro hmem
    have h2 := (List.mem_filter.mp hmem).2
    simp only [decide_eq_true_eq] at h2
    exact h (congrArg Prod.snd h2)
  · intro e he heq
    have h2 := (List.mem_filter.mp he).2
    simp only [decide_eq_true_eq] at h2
    rw [heq] at h2
    exact h (congrArg Prod.snd h2)

/-- Claim C8 witness: the isolation fact at the concrete identities
`alice` and `bob`. -/
theorem C8_memory_isolation_witness :
    (⟨memoryNamespace "alice", "researches Vapor Labs"⟩ : MemoryEntry) ∉
      searchMemory (saveMemory [] (memoryNamespace "alice") "researches Vapor Labs")
        (memoryNamespace "bob") ∧
    ∀ e ∈ searchMemory (saveMemory [] (memoryNamespace "alice") "researches Vapor Labs")
        (memoryNamespace "bob"),
      e.ns ≠ memoryNamespace "alice" :=
  C8_memory_isolation [] "alice" "bob" "researches Vapor Labs" (by decide)

/-- Claim C10 counterexample: at the concrete requested ceiling `5`, the
entry-point contract the claim states builds a request state with
`max_iterations = 5`, but the repository's entry points accept no ceiling
argument — `research(question)` in v4, `research(question, user_id?)` in
v6 — and v4 always builds the request state with the hardcoded ceiling
`3`, so no caller-supplied override exists in the code. -/
theorem C10_counterexample :
    (claimedInitialState "What was VaporWare?" (some 5)).max_iterations = 5 ∧
    (initialState "What was VaporWare?").max_iterations = 3 ∧
    claimedInitialState "What was VaporWare?" (some 5) ≠
      initialState "What was VaporWare?" := by
  refine ⟨rfl, rfl, fun h => absurd (congrArg ResearchBotState.max_iterations h) (by decide)⟩

/-- Claim C10 amended: the `0.6` confidence threshold and the iteration
ceiling `3` are hardcoded constants, not per-request configuration: every
v4 request state carries `max_iterations = 3`; the reflect-exit routing
compares against the fixed literal `0.6`; and v6's entry point accepts
only an optional `user_id`, resolved against the fixed development
identity. -/
theorem C10_amended_hardcoded_config (question : String) :
    (initialState question).max_iterations = 3 ∧
    (∀ s : ResearchBotState, ∀ c : ℚ, s.confidence = some c →
      s.iteration < s.max_iterations →
      (routeAfterReflect s = Node.RETRIEVE ↔ c < 6 / 10)) ∧
    resolveUserId none = "default_user" ∧
    (∀ u, u ≠ "" → resolveUserId (some u) = u) := by
  refine ⟨rfl, ?_, rfl, ?_⟩
  · intro s c hc hlt
    rw [routeAfterReflect_retrieve_iff, hc]
    simp [hlt]
  · intro u hu
    simp [resolveUserId, hu]

/-- Appending to the accumulator of the retrieval loop body commutes with
running the body on an empty accumulator. -/
lemma retrievalStep_acc (search : String → Option (List Doc)) (acc : List Source)
    (q : String) :
    retrievalStep search acc q = acc ++ retrievalStep search [] q := by
  cases h : search q <;> simp [retrievalStep, h]

/-- The retrieval fold with an arbitrary accumulator is the accumulator
followed by the fold from the empty accumulator. -/
lemma gatherSources_acc (search : String → Option (List Doc)) (queries : List String) :
    ∀ acc : List Source,
      queries.foldl (retrievalStep search) acc = acc ++ gatherSources search queries := by
  induction queries with
  | nil => intro acc; simp [gatherSources]
  | cons q qs ih =>
    intro acc
    simp only [gatherSources, List.foldl_cons]
    rw [ih (retrievalStep search acc q), ih (retrievalStep search [] q),
      retrievalStep_acc, List.append_assoc]

/-- Claim C7: the retrieval adapter's result is the concatenation, in
query order then hit-rank order, of the source records of exactly the
queries whose searches succeeded (a failed search contributes nothing),
and removing a failing sub-query from the batch does not change the
result — a single failing sub-query never aborts or empties the batch. -/
theorem C7_retrieval_partial_failure (search : String → Option (List Doc))
    (queries : List String) :
    gatherSources search queries =
      queries.flatMap (fun query =>
        match search query with
        | some results =>
            results.map (fun doc => ⟨doc.page_content, doc.metadata, query⟩)
        | none => []) ∧
    ∀ qs1 q qs2, search q = none →
      gatherSources search (qs1 ++ q :: qs2) = gatherSources search (qs1 ++ qs2) := by
  have hmain : ∀ qs : List String, gatherSources search qs =
      qs.flatMap (fun query =>
        match search query with
        | some results =>
            results.map (fun doc => (⟨doc.page_content, doc.metadata, query⟩ : Source))
        | none => []) := by
    intro qs
    induction qs with
    | nil => rfl
    | cons q qs ih =>
      simp only [gatherSources, List.foldl_cons, List.flatMap_cons]
      rw [gatherSources_acc, ih]
      congr 1
  constructor
  · exact hmain queries
  · intro qs1 q qs2 hq
    rw [hmain, hmain, List.flatMap_append, List.flatMap_append, List.flatMap_cons, hq]
    simp

/-- The deduplication pass only drops elements, keeping the input
order. -/
lemma dedupeAux_sublist (seen : List String) (l : List Source) :
    List.Sublist (dedupeAux seen l) l := by
  induction l generalizing seen with
  | nil => simp [dedupeAux]
  | cons x rest ih =>
    simp only [dedupeAux]
    split
    · exact List.Sublist.cons x (ih seen)
    · exact List.Sublist.cons₂ x (ih (dedupKey x :: seen))

/-- No kept source has a key from the seen-set. -/
lemma dedupeAux_key_not_mem (seen : List String) (l : List Source) :
    ∀ s ∈ dedupeAux seen l, dedupKey s ∉ seen := by
  induction l generalizing seen with
  | nil => simp [dedupeAux]
  | cons x rest ih =>
    simp only [dedupeAux]
    split
    case isTrue hx => exact ih seen
    case isFalse hx =>
      intro s hs
      cases List.mem_cons.mp hs with
      | inl h => rw [h]; exact hx
      | inr h =>
        exact fun hmem => ih (dedupKey x :: seen) s h (List.mem_cons_of_mem _ hmem)

/-- The keys of the kept sources are pairwise distinct. -/
lemma dedupeAux_keys_nodup (seen : List String) (l : List Source) :
    ((dedupeAux seen l).map dedupKey).Nodup := by
  induction l generalizing seen with
  | nil => simp [dedupeAux]
  | cons x rest ih =>
    simp only [dedupeAux]
    split
    case isTrue hx => exact ih seen
    case isFalse hx =>
      rw [List.map_cons]
      refine List.nodup_cons.mpr ⟨?_, ih (dedupKey x :: seen)⟩
      intro hmem
      rcases List.mem_map.mp hmem with ⟨s, hs, hkey⟩
      exact dedupeAux_key_not_mem (dedupKey x :: seen) rest s hs
        (by rw [hkey]; exact List.mem_cons_self _ _)

/-- Every input key outside the seen-set survives the pass. -/
lemma dedupeAux_key_complete (seen : List String) (l : List Source) :
    ∀ s ∈ l, dedupKey s ∉ seen → dedupKey s ∈ (dedupeAux seen l).map dedupKey := by
  induction l generalizing seen with
  | nil => simp
  | cons x rest ih =>
    intro s hs hnot
    simp only [dedupeAux]
    split
    case isTrue hx =>
      cases List.mem_cons.mp hs with
      | inl h => exact absurd (by rw [h]; exact hx) hnot
      | inr h => exact ih seen s h hnot
    case isFalse hx =>
      rw [List.map_cons]
      cases List.mem_cons.mp hs with
      | inl h => rw [h]; exact List.mem_cons_self _ _
      | inr h =>
        by_cases hk : dedupKey s = dedupKey x
        · rw [hk]; exact List.mem_cons_self _ _
        · refine List.mem_cons_of_mem _ (ih (dedupKey x :: seen) s h ?_)
          exact fun hmem => (List.mem_cons.mp hmem).elim hk hnot

/-- Every kept source is the first element of the input whose key is not
already covered — before it, every element's key is either in the
seen-set or differs from its key. -/
lemma dedupeAux_first_occurrence (seen : List String) (l : List Source) :
    ∀ s ∈ dedupeAux seen l, ∃ pre post, l = pre ++ s :: post ∧
      ∀ y ∈ pre, dedupKey y ∈ seen ∨ dedupKey y ≠ dedupKey s := by
  induction l generalizing seen with
  | nil => simp [dedupeAux]
  | cons x rest ih =>
    intro s hs
    simp only [dedupeAux] at hs
    split at hs
    case isTrue hx =>
      rcases ih seen s hs with ⟨pre, post, heq, hpre⟩
      refine ⟨x :: pre, post, by simp [heq], ?_⟩
      intro y hy
      cases List.mem_cons.mp hy with
      | inl h => left; rw [h]; exact hx
      | inr h => exact hpre y h
    case isFalse hx =>
      cases List.mem_cons.mp hs with
      | inl h => exact ⟨[], rest, by simp [h], by simp⟩
      | inr h =>
        rcases ih (dedupKey x :: seen) s h with ⟨pre, post, heq, hpre⟩
        have hkey_s := dedupeAux_key_not_mem (dedupKey x :: seen) rest s h
        refine ⟨x :: pre, post, by simp [heq], ?_⟩
        intro y hy
        cases List.mem_cons.mp hy with
        | inl h2 =>
          right; rw [h2]
          intro hcontra
          exact hkey_s (by rw [← hcontra]; exact List.mem_cons_self _ _)
        | inr h2 =>
          cases hpre y h2 with
          | inl hin =>
            cases List.mem_cons.mp hin with
            | inl heq2 =>
              right; rw [heq2]
              intro hcontra
              exact hkey_s (by rw [← hcontra]; exact List.mem_cons_self _ _)
            | inr hin2 => left; exact hin2
          | inr hne => right; exact hne

/-- Claim C4: deduplication keys each source by the first 200 characters
of its content, keeps the first occurrence of each key (every kept source
is preceded in the input only by sources of other keys, and every input
key survives), drops every later occurrence (the kept keys are pairwise
distinct), and preserves the input order of the kept sources (the result
is a sublist of the input); consequently no two results collide on their
dedup key. -/
theorem C4_dedupe_first_occurrence_order (sources : List Source) :
    List.Sublist (dedupeSources sources) sources ∧
    ((dedupeSources sources).map dedupKey).Nodup ∧
    (∀ s ∈ sources, dedupKey s ∈ (dedupeSources sources).map dedupKey) ∧
    ∀ s ∈ dedupeSources sources, ∃ pre post,
      sources = pre ++ s :: post ∧ ∀ y ∈ pre, dedupKey y ≠ dedupKey s := by
  refine ⟨dedupeAux_sublist [] sources, dedupeAux_keys_nodup [] sources, ?_, ?_⟩
  · intro s hs
    exact dedupeAux_key_complete [] sources s hs (by simp)
  · intro s hs
    rcases dedupeAux_first_occurrence [] sources s hs with ⟨pre, post, heq, hpre⟩
    exact ⟨pre, post, heq, fun y hy => (hpre y hy).resolve_left (by simp)⟩

/-- Claim C1: at the REFLECT exit point — a reachable state there always
carries a set confidence — the conditional edge routes to `DONE` when
`iteration ≥ max_iterations`, else to `RETRIEVE` when `confidence < 0.6`,
else to `DONE`; the target is never the planning node, and the reflection
pass leaves the research plan unchanged, so a re-entered retrieval runs
with the same plan. -/
theorem C1_reflect_exit_routing (s : ResearchBotState) (c : ℚ)
    (hc : s.confidence = some c) :
    routeAfterReflect s =
      (if s.max_iterations ≤ s.iteration then Node.DONE
       else if c < 6 / 10 then Node.RETRIEVE else Node.DONE) ∧
    routeAfterReflect s ≠ Node.PLAN ∧
    ∀ caps s0, (applyReflection caps s0).research_plan = s0.research_plan := by
  refine ⟨?_, ?_, fun caps s0 => rfl⟩
  · by_cases h1 : s.max_iterations ≤ s.iteration
    · rw [if_pos h1]
      refine routeAfterReflect_eq_done s (fun hr => ?_)
      have := ((routeAfterReflect_retrieve_iff s).mp hr).1
      omega
    · rw [if_neg h1]
      by_cases h2 : c < 6 / 10
      · rw [if_pos h2, routeAfterReflect_retrieve_iff, hc]
        exact ⟨Nat.lt_of_not_le h1, by simpa using h2⟩
      · rw [if_neg h2]
        refine routeAfterReflect_eq_done s (fun hr => ?_)
        have h3 := ((routeAfterReflect_retrieve_iff s).mp hr).2
        rw [hc] at h3
        simp only [Option.getD_some] at h3
        exact h2 h3
  · unfold routeAfterReflect
    split <;> simp

/-- A concrete state at the REFLECT exit point: one completed pass with a
stored confidence of `0.5`. -/
def sampleReflectState : ResearchBotState :=
  { research_query := "q"
    research_plan := none
    sources := []
    findings := some "f"
    confidence := some (1 / 2)
    iteration := 1
    max_iterations := 3 }

/-- Claim C1 witness: the routing rule evaluated at `sampleReflectState`
(iteration 1 of 3, confidence 0.5, hence a `RETRIEVE` re-entry). -/
theorem C1_reflect_exit_routing_witness :
    routeAfterReflect sampleReflectState =
      (if sampleReflectState.max_iterations ≤ sampleReflectState.iteration then Node.DONE
       else if (1 : ℚ) / 2 < 6 / 10 then Node.RETRIEVE else Node.DONE) ∧
    routeAfterReflect sampleReflectState ≠ Node.PLAN ∧
    ∀ caps s0, (applyReflection caps s0).research_plan = s0.research_plan :=
  C1_reflect_exit_routing sampleReflectState (1 / 2) rfl

/-- Planning does not touch the iteration counter. -/
lemma applyPlanning_iteration (caps : Capabilities) (s : ResearchBotState) :
    (applyPlanning caps s).iteration = s.iteration := rfl

/-- Planning does not touch the iteration ceiling. -/
lemma applyPlanning_max_iterations (caps : Capabilities) (s : ResearchBotState) :
    (applyPlanning caps s).max_iterations = s.max_iterations := rfl

/-- Below the ceiling, the loop never drives the iteration counter past
`max_iterations` (induction on the remaining budget). -/
lemma loopFrom_iteration_le (caps : Capabilities) :
    ∀ n (s : ResearchBotState), s.max_iterations - s.iteration ≤ n →
      s.iteration < s.max_iterations →
      (loopFrom caps s).iteration ≤ s.max_iterations := by
  intro n
  induction n with
  | zero => intro s h0 hlt; omega
  | succ n ih =>
    intro s hn hlt
    rw [loopFrom]
    split
    case isTrue h =>
      have h2 := ((routeAfterReflect_retrieve_iff _).mp h).1
      rw [researchCycle_iteration, researchCycle_max_iterations] at h2
      have h3 := ih (researchCycle caps s)
        (by rw [researchCycle_iteration, researchCycle_max_iterations]; omega)
        (by rw [researchCycle_iteration, researchCycle_max_iterations]; exact h2)
      rw [researchCycle_max_iterations] at h3
      exact h3
    case isFalse h =>
      rw [researchCycle_iteration]
      omega

/-- The loop never changes the iteration ceiling. -/
lemma loopFrom_max_iterations (caps : Capabilities) :
    ∀ n (s : ResearchBotState), s.max_iterations - s.iteration ≤ n →
      (loopFrom caps s).max_iterations = s.max_iterations := by
  intro n
  induction n with
  | zero =>
    intro s h0
    rw [loopFrom]
    split
    case isTrue h =>
      have h2 := ((routeAfterReflect_retrieve_iff _).mp h).1
      rw [researchCycle_iteration, researchCycle_max_iterations] at h2
      omega
    case isFalse h => exact researchCycle_max_iterations caps s
  | succ n ih =>
    intro s hn
    rw [loopFrom]
    split
    case isTrue h =>
      have h2 := ((routeAfterReflect_retrieve_iff _).mp h).1
      rw [researchCycle_iteration, researchCycle_max_iterations] at h2
      rw [ih (researchCycle caps s)
        (by rw [researchCycle_iteration, researchCycle_max_iterations]; omega)]
      exact researchCycle_max_iterations caps s
    case isFalse h => exact researchCycle_max_iterations caps s

/-- When every reflection response scores below the threshold, the loop
runs the iteration counter exactly up to the ceiling and exits with the
conditional edge routing to `END`. -/
lemma loopFrom_low_confidence (caps : Capabilities)
    (hlow : ∀ p, confidenceOf (caps.complete p) < 6 / 10) :
    ∀ n (s : ResearchBotState), s.max_iterations - s.iteration ≤ n →
      s.iteration < s.max_iterations →
      (loopFrom caps s).iteration = s.max_iterations ∧
      routeAfterReflect (loopFrom caps s) = Node.DONE := by
  intro n
  induction n with
  | zero => intro s h0 hlt; omega
  | succ n ih =>
    intro s hn hlt
    rw [loopFrom]
    split
    case isTrue h =>
      have h2 := ((routeAfterReflect_retrieve_iff _).mp h).1
      rw [researchCycle_iteration, researchCycle_max_iterations] at h2
      have h3 := ih (researchCycle caps s)
        (by rw [researchCycle_iteration, researchCycle_max_iterations]; omega)
        (by rw [researchCycle_iteration, researchCycle_max_iterations]; exact h2)
      rw [researchCycle_max_iterations] at h3
      exact h3
    case isFalse h =>
      constructor
      · have hconf : (researchCycle caps s).confidence.getD 0 < 6 / 10 := hlow _
        have h4 : ¬ ((researchCycle caps s).iteration < (researchCycle caps s).max_iterations ∧
            (researchCycle caps s).confidence.getD 0 < 6 / 10) :=
          fun hcon => h ((routeAfterReflect_retrieve_iff _).mpr hcon)
        rw [researchCycle_iteration, researchCycle_max_iterations] at h4
        have h5 : ¬ (s.iteration + 1 < s.max_iterations) := fun hl => h4 ⟨hl, hconf⟩
        rw [researchCycle_iteration]
        omega
      · exact routeAfterReflect_eq_done _ h

/-- Claim C2: for every request the iteration counter at termination is at
most the ceiling; and when every reflect pass scores below `0.6`, a run
with ceiling `N ≥ 1` performs exactly `N` reflect passes (the final
iteration counter, which counts completed reflect passes, equals `N`) and
then the conditional edge routes to `END` — the loop always terminates. -/
theorem C2_termination_iteration_bound (caps : Capabilities) (question : String)
    (N : Nat) (hN : 1 ≤ N)
    (hlow : ∀ p, confidenceOf (caps.complete p) < 6 / 10) :
    (∀ caps2 : Capabilities, ∀ q2 : String,
      (researchFinalState caps2 q2).iteration ≤
        (researchFinalState caps2 q2).max_iterations) ∧
    (runLoopWith caps question N).iteration = N ∧
    routeAfterReflect (runLoopWith caps question N) = Node.DONE := by
  refine ⟨?_, ?_⟩
  · intro caps2 q2
    unfold researchFinalState
    have h1 : (applyPlanning caps2 (initialState q2)).iteration = 0 := rfl
    have h2 : (applyPlanning caps2 (initialState q2)).max_iterations = 3 := rfl
    have h3 := loopFrom_iteration_le caps2 3 (applyPlanning caps2 (initialState q2))
      (by omega) (by omega)
    have h4 := loopFrom_max_iterations caps2 3 (applyPlanning caps2 (initialState q2))
      (by omega)
    omega
  · have h1 : (applyPlanning caps (initialStateWith question N)).iteration = 0 := rfl
    have h2 : (applyPlanning caps (initialStateWith question N)).max_iterations = N := rfl
    have key := loopFrom_low_confidence caps hlow N
      (applyPlanning caps (initialStateWith question N)) (by omega) (by omega)
    constructor
    · show (runLoopWith caps question N).iteration = N
      unfold runLoopWith
      rw [key.1]
      exact h2
    · show routeAfterReflect (runLoopWith caps question N) = Node.DONE
      unfold runLoopWith
      exact key.2

/-- A completion capability whose every answer is the score `0`, and a
search that always fails. -/
def lowConfidenceCaps : Capabilities :=
  { complete := fun _ => "0", search := fun _ => none }

/-- Claim C2 witness: with the constant-`0` reflector and ceiling `2`,
the loop performs exactly two reflect passes and stops. -/
theorem C2_termination_iteration_bound_witness :
    (∀ caps2 : Capabilities, ∀ q2 : String,
      (researchFinalState caps2 q2).iteration ≤
        (researchFinalState caps2 q2).max_iterations) ∧
    (runLoopWith lowConfidenceCaps "What was VaporWare?" 2).iteration = 2 ∧
    routeAfterReflect (runLoopWith lowConfidenceCaps "What was VaporWare?" 2) =
      Node.DONE :=
  C2_termination_iteration_bound lowConfidenceCaps "What was VaporWare?" 2
    (by decide)
    (fun p => show confidenceOf "0" < 6 / 10 by
      rw [show confidenceOf "0" = 0 from by decide]
      norm_num)

/-- Every character the digit scanner keeps is a digit. -/
lemma takeDigits_all (cs : List Char) : ∀ c ∈ (takeDigits cs).1, isDigitChar c = true := by
  induction cs with
  | nil => simp [takeDigits]
  | cons c cs ih =>
    intro x hx
    simp only [takeDigits] at hx
    split at hx
    case isTrue h =>
      cases List.mem_cons.mp hx with
      | inl he => rw [he]; exact h
      | inr hm => exact ih x hm
    case isFalse h => simp at hx

/-- A digit string of length `k` denotes a value below `10 ^ k`. -/
lemma digitsToNat_lt (ds : List Char) (h : ∀ c ∈ ds, isDigitChar c = true) :
    digitsToNat ds < 10 ^ ds.length := by
  induction ds with
  | nil => simp [digitsToNat]
  | cons c cs ih =>
    have hc := h c (List.mem_cons_self c cs)
    have hd : c.toNat - 48 ≤ 9 := by
      simp only [isDigitChar, Bool.and_eq_true, decide_eq_true_eq] at hc
      omega
    have hrec := ih (fun x hx => h x (List.mem_cons_of_mem c hx))
    have hmul : (c.toNat - 48) * 10 ^ cs.length ≤ 9 * 10 ^ cs.length :=
      Nat.mul_le_mul_right _ hd
    have hpow : 10 ^ (cs.length + 1) = 10 * 10 ^ cs.length := by
      rw [Nat.pow_succ, Nat.mul_comm]
    simp only [digitsToNat, List.length_cons]
    omega

/-- A token `.ds` with `ds` digits parses into `[0, 1]`. -/
lemma parseScore_dot_digits (ds : List Char) (h : ∀ c ∈ ds, isDigitChar c = true) :
    0 ≤ parseScore ('.' :: ds) ∧ parseScore ('.' :: ds) ≤ 1 := by
  have hds := digitsToNat_lt ds h
  have hred : parseScore ('.' :: ds) =
      (digitsToNat ([] : List Char) : ℚ) + (digitsToNat ds : ℚ) / 10 ^ ds.length := rfl
  have hpow : (0 : ℚ) < 10 ^ ds.length := by positivity
  have hcast : (digitsToNat ds : ℚ) < 10 ^ ds.length := by exact_mod_cast hds
  rw [hred]
  simp only [digitsToNat, Nat.cast_zero, zero_add]
  constructor
  · positivity
  · rw [div_le_one hpow]
    exact le_of_lt hcast

/-- A token `0.ds` with `ds` digits parses into `[0, 1]`. -/
lemma parseScore_zero_dot_digits (ds : List Char) (h : ∀ c ∈ ds, isDigitChar c = true) :
    0 ≤ parseScore ('0' :: '.' :: ds) ∧ parseScore ('0' :: '.' :: ds) ≤ 1 := by
  have hds := digitsToNat_lt ds h
  have hred : parseScore ('0' :: '.' :: ds) =
      (digitsToNat ['0'] : ℚ) + (digitsToNat ds : ℚ) / 10 ^ ds.length := rfl
  have hpow : (0 : ℚ) < 10 ^ ds.length := by positivity
  have hcast : (digitsToNat ds : ℚ) < 10 ^ ds.length := by exact_mod_cast hds
  rw [hred, show digitsToNat ['0'] = 0 from by decide]
  simp only [Nat.cast_zero, zero_add]
  constructor
  · positivity
  · rw [div_le_one hpow]
    exact le_of_lt hcast

/-- The token `1.0` parses to `1`. -/
lemma parseScore_one_dot_zero : parseScore ['1', '.', '0'] = 1 := by
  rw [show parseScore ['1', '.', '0'] =
      (digitsToNat ['1'] : ℚ) + (digitsToNat ['0'] : ℚ) / 10 ^ 1 from rfl,
    show digitsToNat ['1'] = 1 from by decide,
    show digitsToNat ['0'] = 0 from by decide]
  norm_num

/-- The token `0` parses to `0`. -/
lemma parseScore_single_zero : parseScore ['0'] = 0 := by
  rw [show parseScore ['0'] = ((digitsToNat ['0'] : ℕ) : ℚ) from rfl,
    show digitsToNat ['0'] = 0 from by decide]
  norm_num

/-- The token `1` parses to `1`. -/
lemma parseScore_single_one : parseScore ['1'] = 1 := by
  rw [show parseScore ['1'] = ((digitsToNat ['1'] : ℕ) : ℚ) from rfl,
    show digitsToNat ['1'] = 1 from by decide]
  norm_num

/-- A match of `\.\d+` is a dot followed by one or more digits. -/
lemma matchDotDigits_sound (cs m r : List Char) (h : matchDotDigits cs = some (m, r)) :
    ∃ ds, m = '.' :: ds ∧ ds ≠ [] ∧ ∀ c ∈ ds, isDigitChar c = true := by
  rw [matchDotDigits.eq_def] at h
  split at h
  · split at h
    case isTrue h2 => exact absurd h (by simp)
    case isFalse h2 =>
      rename_i rest
      injection h with h3
      rw [Prod.mk.injEq] at h3
      obtain ⟨h4, h5⟩ := h3
      exact ⟨(takeDigits rest).1, h4.symm, h2, takeDigits_all rest⟩
  · exact absurd h (by simp)

/-- Every match of the alternative `0?\.\d+` parses into `[0, 1]`. -/
lemma matchZeroDotDigits_sound (cs m r : List Char)
    (h : matchZeroDotDigits cs = some (m, r)) :
    0 ≤ parseScore m ∧ parseScore m ≤ 1 := by
  rw [matchZeroDotDigits.eq_def] at h
  split at h
  · split at h
    · rename_i heq
      rcases matchDotDigits_sound _ _ _ heq with ⟨ds, hds1, hds2, hds3⟩
      injection h with h3
      rw [Prod.mk.injEq] at h3
      obtain ⟨h4, h5⟩ := h3
      rw [← h4, hds1]
      exact parseScore_zero_dot_digits ds hds3
    · rcases matchDotDigits_sound _ m r h with ⟨ds, hds1, hds2, hds3⟩
      rw [hds1]
      exact parseScore_dot_digits ds hds3
  · rcases matchDotDigits_sound _ m r h with ⟨ds, hds1, hds2, hds3⟩
    rw [hds1]
    exact parseScore_dot_digits ds hds3

/-- Every match of the full score pattern parses into `[0, 1]`. -/
lemma matchScore_sound (cs m r : List Char) (h : matchScore cs = some (m, r)) :
    0 ≤ parseScore m ∧ parseScore m ≤ 1 := by
  rw [matchScore.eq_def] at h
  split at h
  · rename_i x heq
    injection h with h3
    rw [h3] at heq
    exact matchZeroDotDigits_sound cs m r heq
  · split at h
    · injection h with h3
      rw [Prod.mk.injEq] at h3
      obtain ⟨h4, h5⟩ := h3
      rw [← h4, parseScore_one_dot_zero]
      norm_num
    · injection h with h3
      rw [Prod.mk.injEq] at h3
      obtain ⟨h4, h5⟩ := h3
      rw [← h4, parseScore_single_zero]
      norm_num
    · injection h with h3
      rw [Prod.mk.injEq] at h3
      obtain ⟨h4, h5⟩ := h3
      rw [← h4, parseScore_single_one]
      norm_num
    · exact absurd h (by simp)

/-- Every token the scan reports parses into `[0, 1]`. -/
lemma findallAux_sound :
    ∀ fuel cs m, m ∈ findallAux fuel cs → 0 ≤ parseScore m ∧ parseScore m ≤ 1 := by
  intro fuel
  induction fuel with
  | zero => intro cs m hm; simp [findallAux] at hm
  | succ fuel ih =>
    intro cs m hm
    cases cs with
    | nil => simp [findallAux] at hm
    | cons c cs2 =>
      simp only [findallAux] at hm
      cases hms : matchScore (c :: cs2) with
      | some x =>
        obtain ⟨m0, r0⟩ := x
        simp only [hms] at hm
        cases List.mem_cons.mp hm with
        | inl he => rw [he]; exact matchScore_sound _ _ _ hms
        | inr hm2 => exact ih r0 m hm2
      | none =>
        simp only [hms] at hm
        exact ih cs2 m hm

/-- Claim C6: the stored confidence is determined by the first match of
the score pattern in the stripped response — when no token matches, it is
exactly `0.7`; when a first token matches, the confidence is exactly its
parsed value (every matchable token parses into `[0, 1]`, so the clamp is
the identity and parsing never fails); either way the reflect pass
produces a value, never an error. -/
theorem C6_confidence_parse_policy (response : String) :
    (findallScores (stripData response.data) = [] → confidenceOf response = 7 / 10) ∧
    ∀ tok rest, findallScores (stripData response.data) = tok :: rest →
      confidenceOf response = parseScore tok ∧
      0 ≤ parseScore tok ∧ parseScore tok ≤ 1 := by
  constructor
  · intro h
    unfold confidenceOf rawConfidence
    rw [h]
    norm_num [min_def, max_def]
  · intro tok rest h
    have hmem : tok ∈ findallAux (stripData response.data).length (stripData response.data) := by
      have h2 : findallAux (stripData response.data).length (stripData response.data) =
          tok :: rest := h
      rw [h2]
      exact List.mem_cons_self _ _
    have hb := findallAux_sound _ _ _ hmem
    have hr : rawConfidence response = parseScore tok := by
      unfold rawConfidence
      rw [h]
    refine ⟨?_, hb⟩
    unfold confidenceOf
    rw [hr, min_eq_right hb.2, max_eq_right hb.1]

end ResearchBot
